import Mathlib

/-!
Verification of the axis-dispatch and gradient-assembly core of
cvxpy/atoms/axis_atom.py (class AxisAtom).

The embedding models:
- matrices (dense numpy arrays / scipy sparse matrices) as `Mat`:
  a shape together with an entry function into ℚ;
- the abstract per-column derivative primitive `_column_grad` as a function
  `List ℚ → Option Mat` (`none` is Python's `None`, the non-differentiable
  signal);
- Python runtime failures (`AttributeError` from `None.T`, scipy's
  `ValueError` for out-of-range triplet indices) as `PyError` in `Except`;
- `_axis_grad`'s early-return loops as the explicit recursion `gradLoop`.
-/

/-- A numeric matrix: shape plus entry function (row, column) → ℚ. -/
structure Mat where
  rows : Nat
  cols : Nat
  entry : Nat → Nat → ℚ

/-- Python runtime failures observable in `_axis_grad`:
`valueError` (scipy rejects an out-of-range sparse index, and
`validate_arguments` raises `ValueError`), `attributeError` (`None.T`). -/
inductive PyError where
  | valueError
  | attributeError
deriving DecidableEq

/-- numpy transpose `A.T`. -/
def Mat.transpose (A : Mat) : Mat :=
  ⟨A.cols, A.rows, fun r c => A.entry c r⟩

/-- entrywise sum `A + B` (shape taken from the left operand, as both
operands always share a shape at the call sites in `_axis_grad`). -/
def Mat.add (A B : Mat) : Mat :=
  ⟨A.rows, A.cols, fun r c => A.entry r c + B.entry r c⟩

/-- `sp.csc_matrix((r, c))`: the all-zero sparse matrix of shape (r, c). -/
def zeroMat (r c : Nat) : Mat :=
  ⟨r, c, fun _ _ => 0⟩

/-- `values[0][:, i]`: column `i` of `A` as a 1-D vector of length `A.rows`. -/
def colList (A : Mat) (i : Nat) : List ℚ :=
  (List.range A.rows).map (fun r => A.entry r i)

/-- `np.reshape(values[0].T, (m*n, 1))`: transpose-then-flatten (row-major
flatten of the transpose, i.e. column-major order of `A`) into a length
`m*n` vector; position `k` holds `A[k % m, k / m]`. -/
def vecTF (A : Mat) : List ℚ :=
  (List.range (A.rows * A.cols)).map (fun k => A.entry (k % A.rows) (k / A.rows))

/-- `sp.csc_matrix(D)` applied to an already-built matrix: a storage-format
conversion, mathematically the identity on the represented matrix. -/
def csc_of (M : Mat) : Mat := M

/-- Python attribute access `x.T` on an optional matrix: `None.T` raises
`AttributeError`; on a matrix it is the transpose. -/
def pyTranspose : Option Mat → Except PyError Mat
  | none => .error .attributeError
  | some A => .ok A.transpose

/-- `np.linspace(i*n, i*n+m-1, m)` of the axis=0 branch: row index number
`k` for slice `i` is `i*n + k`. -/
def row0 (n i k : Nat) : Nat := i * n + k

/-- `np.linspace(i, i+(n-1)*m, n)` of the axis=1 branch: row index number
`k` for slice `i` is `i + k*m`. -/
def row1 (m i k : Nat) : Nat := i + k * m

/-- scipy's bound check on a triplet index array: every index below the
matrix dimension. -/
def boundsOK (len : Nat) (idx : Nat → Nat) (bound : Nat) : Bool :=
  (List.range len).all (fun k => decide (idx k < bound))

/-- The matrix represented by a coordinate-triplet list (duplicate
coordinates are summed, as in scipy's COO-to-CSC conversion). -/
def cooMat (len : Nat) (data : Nat → ℚ) (row col : Nat → Nat) (nr nc : Nat) : Mat :=
  ⟨nr, nc, fun r c =>
    ∑ k in Finset.range len, if row k = r ∧ col k = c then data k else 0⟩

/-- `sp.csc_matrix((data, (row, col)), shape=(nr, nc))`: scipy raises
`ValueError` when an index exceeds the declared shape, otherwise builds the
triplet matrix. -/
def csc_triplets (len : Nat) (data : Nat → ℚ) (row col : Nat → Nat) (nr nc : Nat) :
    Except PyError Mat :=
  if boundsOK len row nr && boundsOK len col nc then
    .ok (cooMat len data row col nr nc)
  else
    .error .valueError

/-- `AxisAtom.size_from_args`: output shape from the operand shape `(m, n)`
and the stored axis (`None` → (1,1); `0` → (1,n); anything else → (m,1)). -/
def size_from_args (axis : Option Int) (m n : Nat) : Nat × Nat :=
  match axis with
  | none => (1, 1)
  | some a => if a = 0 then (1, n) else (m, 1)

/-- `AxisAtom.get_data`: the single-element list `[self.axis]`. -/
def get_data (axis : Option Int) : List (Option Int) := [axis]

/-- `AxisAtom.validate_arguments`: raises `ValueError` when the axis is
neither `None` nor in `[0, 1]`. -/
def validate_arguments (axis : Option Int) : Except PyError Unit :=
  match axis with
  | none => .ok ()
  | some a => if a = 0 ∨ a = 1 then .ok () else .error .valueError

/-- One iteration of the axis=0 loop of `_axis_grad`:
`value = values[0][:, i]`, `d = self._column_grad(value).T` (note: the
transpose is applied before the `if d is None` test, which is therefore
unreachable once `.T` has succeeded), then
`D + sp.csc_matrix((np.array(d)[0], (row, col)), shape=(m*n, n))` with
`row = linspace(i*n, i*n+m-1, m)` and `col = ones(m)*i`. -/
def grad0_step (cg : List ℚ → Option Mat) (A : Mat) (D : Mat) (i : Nat) :
    Except PyError Mat :=
  match pyTranspose (cg (colList A i)) with
  | .error e => .error e
  | .ok d =>
    match csc_triplets A.rows (fun k => d.entry 0 k) (row0 A.cols i) (fun _ => i)
        (A.rows * A.cols) A.cols with
    | .error e => .error e
    | .ok B => .ok (D.add B)

/-- One iteration of the axis=1 loop of `_axis_grad` (operand already
transposed): `value = values[:, i]`, `d = self._column_grad(value).T`
(again before the `None` test), then addition of the triplet matrix with
`row = linspace(i, i+(n-1)*m, n)`, `col = ones(n)*i`, shape `(m*n, m)`. -/
def grad1_step (cg : List ℚ → Option Mat) (AT : Mat) (m n : Nat) (D : Mat) (i : Nat) :
    Except PyError Mat :=
  match pyTranspose (cg (colList AT i)) with
  | .error e => .error e
  | .ok d =>
    match csc_triplets n (fun k => d.entry 0 k) (row1 m i) (fun _ => i)
        (m * n) m with
    | .error e => .error e
    | .ok B => .ok (D.add B)

/-- The `for i in range(...)` accumulation loop with Python's early exit on
an uncaught exception. -/
def gradLoop (step : Mat → Nat → Except PyError Mat) (D : Mat) :
    List Nat → Except PyError Mat
  | [] => .ok D
  | i :: rest =>
    match step D i with
    | .error e => .error e
    | .ok D2 => gradLoop step D2 rest

/-- `AxisAtom._axis_grad` for the single operand: `m, n` are the operand's
declared dimensions (`A.rows`, `A.cols`); `cg` is the abstract
`self._column_grad`. The returned `Option Mat` models the list `[D]` /
`[None]`; `Except` carries Python runtime errors. -/
def _axis_grad (axis : Option Int) (cg : List ℚ → Option Mat) (A : Mat) :
    Except PyError (Option Mat) :=
  let m := A.rows
  let n := A.cols
  match axis with
  | none => .ok ((cg (vecTF A)).map csc_of)
  | some a =>
    if a = 0 then
      Except.map some
        (gradLoop (grad0_step cg A) (zeroMat (m * n) n) (List.range n))
    else
      Except.map some
        (gradLoop (grad1_step cg A.transpose m n) (zeroMat (m * n) m) (List.range m))

/-- The triplet matrix contributed by slice `i` of the axis=0 loop, when its
column gradient is `g`. -/
def slice0Mat (A : Mat) (g : Mat) (i : Nat) : Mat :=
  cooMat A.rows (fun k => g.transpose.entry 0 k) (row0 A.cols i) (fun _ => i)
    (A.rows * A.cols) A.cols

/-- The triplet matrix contributed by slice `i` of the axis=1 loop, when its
column gradient is `g`. -/
def slice1Mat (m n : Nat) (g : Mat) (i : Nat) : Mat :=
  cooMat n (fun k => g.transpose.entry 0 k) (row1 m i) (fun _ => i) (m * n) m

/-- Concrete 1×1 operand with value 0. -/
def A11 : Mat := ⟨1, 1, fun _ _ => 0⟩

/-- Concrete 1×2 operand (one row, two columns) with all entries 1. -/
def A12 : Mat := ⟨1, 2, fun _ _ => 1⟩

/-- Concrete 2×2 operand with entries r + c. -/
def A22 : Mat := ⟨2, 2, fun r c => (r : ℚ) + (c : ℚ)⟩

/-- A contract-satisfying primitive: for a length-k input it returns the
all-ones k×1 column gradient. -/
def lenGrad : List ℚ → Option Mat :=
  fun v => some ⟨v.length, 1, fun _ _ => 1⟩

/-- Concrete 1×1 gradient matrix with entry 1. -/
def gOne : Mat := ⟨1, 1, fun _ _ => 1⟩

/-- Concrete 2×1 gradient matrix with entries r + 1. -/
def gTwo : Mat := ⟨2, 1, fun r _ => (r : ℚ) + 1⟩

/-! ## General lemmas about the loop and the triplet matrices -/

theorem gradLoop_ok (step : Mat → Nat → Except PyError Mat) (B : Nat → Mat) :
    ∀ (l : List Nat) (D0 : Mat),
      (∀ i ∈ l, ∀ D, step D i = Except.ok (D.add (B i))) →
      gradLoop step D0 l
        = Except.ok (List.foldl (fun D i => D.add (B i)) D0 l) := by
  intro l
  induction l with
  | nil => intro D0 _; rfl
  | cons i t ih =>
    intro D0 h
    have hi := h i (List.mem_cons_self i t) D0
    simp only [gradLoop, hi, List.foldl_cons]
    exact ih (D0.add (B i)) (fun j hj D => h j (List.mem_cons_of_mem i hj) D)

theorem gradLoop_shape (step : Mat → Nat → Except PyError Mat)
    (hstep : ∀ D i D2, step D i = Except.ok D2 → D2.rows = D.rows ∧ D2.cols = D.cols) :
    ∀ (l : List Nat) (D0 D : Mat), gradLoop step D0 l = Except.ok D →
      D.rows = D0.rows ∧ D.cols = D0.cols := by
  intro l
  induction l with
  | nil =>
    intro D0 D h
    cases h
    exact ⟨rfl, rfl⟩
  | cons i t ih =>
    intro D0 D h
    simp only [gradLoop] at h
    cases hs : step D0 i with
    | error e => rw [hs] at h; cases h
    | ok D1 =>
      rw [hs] at h
      obtain ⟨h1, h2⟩ := ih D1 D h
      obtain ⟨h3, h4⟩ := hstep D0 i D1 hs
      exact ⟨h1.trans h3, h2.trans h4⟩

theorem foldl_add_entry (B : Nat → Mat) :
    ∀ (l : List Nat) (D0 : Mat) (r c : Nat),
      (List.foldl (fun D i => D.add (B i)) D0 l).entry r c
        = D0.entry r c + (l.map (fun i => (B i).entry r c)).sum := by
  intro l
  induction l with
  | nil => intro D0 r c; simp
  | cons i t ih =>
    intro D0 r c
    simp only [List.foldl_cons, List.map_cons, List.sum_cons]
    rw [ih]
    show (D0.add (B i)).entry r c + _ = _
    simp only [Mat.add]
    ring

theorem foldl_add_rows (B : Nat → Mat) :
    ∀ (l : List Nat) (D0 : Mat),
      (List.foldl (fun D i => D.add (B i)) D0 l).rows = D0.rows := by
  intro l
  induction l with
  | nil => intro D0; rfl
  | cons i t ih => intro D0; simpa using ih (D0.add (B i))

theorem foldl_add_cols (B : Nat → Mat) :
    ∀ (l : List Nat) (D0 : Mat),
      (List.foldl (fun D i => D.add (B i)) D0 l).cols = D0.cols := by
  intro l
  induction l with
  | nil => intro D0; rfl
  | cons i t ih => intro D0; simpa using ih (D0.add (B i))

theorem cooMat_entry_eq (len : Nat) (data : Nat → ℚ) (row col : Nat → Nat)
    (nr nc : Nat) (k0 : Nat) (hk0 : k0 < len)
    (hinj : ∀ k, k < len → row k = row k0 → k = k0) :
    (cooMat len data row col nr nc).entry (row k0) (col k0) = data k0 := by
  unfold cooMat
  dsimp only
  have hcg : ∀ k ∈ Finset.range len,
      (if row k = row k0 ∧ col k = col k0 then data k else 0)
        = if k = k0 then data k else 0 := by
    intro k hk
    by_cases hkk : k = k0
    · subst hkk; simp
    · have hr : ¬ (row k = row k0 ∧ col k = col k0) :=
        fun hand => hkk (hinj k (Finset.mem_range.mp hk) hand.1)
      simp [hkk, hr]
  rw [Finset.sum_congr rfl hcg, Finset.sum_ite_eq']
  simp [Finset.mem_range.mpr hk0]

theorem cooMat_entry_zero (len : Nat) (data : Nat → ℚ) (row col : Nat → Nat)
    (nr nc : Nat) (r c : Nat)
    (h : ∀ k, k < len → row k ≠ r ∨ col k ≠ c) :
    (cooMat len data row col nr nc).entry r c = 0 := by
  unfold cooMat
  dsimp only
  apply Finset.sum_eq_zero
  intro k hk
  rcases h k (Finset.mem_range.mp hk) with h1 | h1 <;> simp [h1]

theorem sum_map_range_eq_single (f : Nat → ℚ) :
    ∀ (n c : Nat), c < n → (∀ j, j ≠ c → f j = 0) →
      ((List.range n).map f).sum = f c := by
  intro n
  induction n with
  | zero => intro c hc _; exact absurd hc (by omega)
  | succ t ih =>
    intro c hc h0
    rw [List.range_succ, List.map_append, List.sum_append]
    by_cases hct : c = t
    · subst hct
      have hz : ((List.range c).map f).sum = 0 := by
        apply List.sum_eq_zero
        intro x hx
        obtain ⟨j, hj, rfl⟩ := List.mem_map.mp hx
        exact h0 j (by have := List.mem_range.mp hj; omega)
      simp [hz]
    · have hct2 : c < t := by omega
      rw [ih c hct2 h0]
      simp [h0 t (fun ht => hct ht.symm)]

theorem sum_map_range_eq_zero (f : Nat → ℚ) (n : Nat)
    (h0 : ∀ j, j < n → f j = 0) : ((List.range n).map f).sum = 0 := by
  apply List.sum_eq_zero
  intro x hx
  obtain ⟨j, hj, rfl⟩ := List.mem_map.mp hx
  exact h0 j (List.mem_range.mp hj)

/-! ## Index arithmetic for the two row-placement formulas -/

theorem row0_bound (m n i k : Nat) (hmn : n ≤ m) (hi : i < n) (hk : k < m) :
    row0 n i k < m * n := by
  unfold row0
  have h1 : i * n + k < i * n + m := Nat.add_lt_add_left hk _
  have h2 : i * n + m ≤ (n - 1) * n + m :=
    Nat.add_le_add_right (mul_le_mul_right' (by omega) n) m
  have h3 : (n - 1) * n + m ≤ (n - 1) * m + m :=
    Nat.add_le_add_right (mul_le_mul_left' hmn (n - 1)) m
  have h4 : (n - 1) * m + m = n * m := by
    have hn1 : n - 1 + 1 = n := by omega
    calc (n - 1) * m + m = (n - 1 + 1) * m := (Nat.succ_mul (n - 1) m).symm
    _ = n * m := by rw [hn1]
  calc i * n + k < i * n + m := h1
  _ ≤ (n - 1) * n + m := h2
  _ ≤ (n - 1) * m + m := h3
  _ = n * m := h4
  _ = m * n := Nat.mul_comm n m

theorem row1_bound (m n i k : Nat) (hi : i < m) (hk : k < n) :
    row1 m i k < m * n := by
  unfold row1
  have h1 : i + k * m < m + k * m := Nat.add_lt_add_right hi _
  have h2 : m + k * m = (k + 1) * m := by ring
  have h3 : (k + 1) * m ≤ n * m := mul_le_mul_right' hk m
  calc i + k * m < m + k * m := h1
  _ = (k + 1) * m := h2
  _ ≤ n * m := h3
  _ = m * n := Nat.mul_comm n m

theorem row0_lt_of_lt (n i j k k2 : Nat) (hij : i < j) (hk : k < n) :
    row0 n i k < row0 n j k2 := by
  unfold row0
  calc i * n + k < i * n + n := Nat.add_lt_add_left hk _
  _ = (i + 1) * n := (Nat.succ_mul i n).symm
  _ ≤ j * n := mul_le_mul_right' hij n
  _ ≤ j * n + k2 := Nat.le_add_right _ _

/-! ## Per-step lemmas for the two loops -/

theorem grad0_step_ok (cg : List ℚ → Option Mat) (A : Mat) (G : Nat → Mat)
    (i : Nat) (hmn : A.cols ≤ A.rows) (hi : i < A.cols)
    (hgi : cg (colList A i) = some (G i)) (D : Mat) :
    grad0_step cg A D i = Except.ok (D.add (slice0Mat A (G i) i)) := by
  unfold grad0_step
  rw [hgi]
  simp only [pyTranspose]
  have hb : (boundsOK A.rows (row0 A.cols i) (A.rows * A.cols)
      && boundsOK A.rows (fun _ => i) A.cols) = true := by
    simp only [Bool.and_eq_true, boundsOK, List.all_eq_true, List.mem_range,
      decide_eq_true_eq]
    exact ⟨fun k hk => row0_bound A.rows A.cols i k hmn hi hk, fun _ _ => hi⟩
  unfold csc_triplets
  rw [if_pos hb]
  rfl

theorem grad1_step_ok (cg : List ℚ → Option Mat) (AT : Mat) (G : Nat → Mat)
    (m n : Nat) (i : Nat) (hi : i < m)
    (hgi : cg (colList AT i) = some (G i)) (D : Mat) :
    grad1_step cg AT m n D i = Except.ok (D.add (slice1Mat m n (G i) i)) := by
  unfold grad1_step
  rw [hgi]
  simp only [pyTranspose]
  have hb : (boundsOK n (row1 m i) (m * n) && boundsOK n (fun _ => i) m) = true := by
    simp only [Bool.and_eq_true, boundsOK, List.all_eq_true, List.mem_range,
      decide_eq_true_eq]
    exact ⟨fun k hk => row1_bound m n i k hi hk, fun _ _ => hi⟩
  unfold csc_triplets
  rw [if_pos hb]
  rfl

theorem grad0_step_shape (cg : List ℚ → Option Mat) (A : Mat) :
    ∀ (D : Mat) (i : Nat) (D2 : Mat), grad0_step cg A D i = Except.ok D2 →
      D2.rows = D.rows ∧ D2.cols = D.cols := by
  intro D i D2 h
  unfold grad0_step at h
  cases hcg : cg (colList A i) with
  | none => rw [hcg] at h; simp only [pyTranspose] at h; cases h
  | some g =>
    rw [hcg] at h
    simp only [pyTranspose] at h
    unfold csc_triplets at h
    by_cases hb : (boundsOK A.rows (row0 A.cols i) (A.rows * A.cols)
        && boundsOK A.rows (fun _ => i) A.cols) = true
    · rw [if_pos hb] at h
      cases h
      exact ⟨rfl, rfl⟩
    · rw [if_neg hb] at h
      cases h

theorem grad1_step_shape (cg : List ℚ → Option Mat) (AT : Mat) (m n : Nat) :
    ∀ (D : Mat) (i : Nat) (D2 : Mat), grad1_step cg AT m n D i = Except.ok D2 →
      D2.rows = D.rows ∧ D2.cols = D.cols := by
  intro D i D2 h
  unfold grad1_step at h
  cases hcg : cg (colList AT i) with
  | none => rw [hcg] at h; simp only [pyTranspose] at h; cases h
  | some g =>
    rw [hcg] at h
    simp only [pyTranspose] at h
    unfold csc_triplets at h
    by_cases hb : (boundsOK n (row1 m i) (m * n) && boundsOK n (fun _ => i) m) = true
    · rw [if_pos hb] at h
      cases h
      exact ⟨rfl, rfl⟩
    · rw [if_neg hb] at h
      cases h

/-! ## Claim theorems: shape inference, validation, metadata, axis=None -/

/-- C4: for every operand shape (m, n), `size_from_args` returns (1, 1) for
axis `None`, (1, n) for axis 0 and (m, 1) for axis 1; it is a total Lean
function with no side effects, so it never fails on a valid axis. -/
theorem size_from_args_spec (m n : Nat) :
    size_from_args none m n = (1, 1) ∧
    size_from_args (some 0) m n = (1, n) ∧
    size_from_args (some 1) m n = (m, 1) := by
  refine ⟨rfl, ?_, ?_⟩ <;> simp [size_from_args]

/-- C5: `validate_arguments` succeeds exactly on axis in {None, 0, 1} and
raises `ValueError` exactly on every other axis value. -/
theorem validate_arguments_spec (a : Option Int) :
    (validate_arguments a = Except.ok () ↔
      (a = none ∨ a = some 0 ∨ a = some 1)) ∧
    (validate_arguments a = Except.error PyError.valueError ↔
      ¬ (a = none ∨ a = some 0 ∨ a = some 1)) := by
  cases a with
  | none => simp [validate_arguments]
  | some x =>
    by_cases hx : x = 0 ∨ x = 1
    · constructor
      · simp only [validate_arguments, if_pos hx]
        rcases hx with hx | hx <;> simp [hx]
      · simp only [validate_arguments, if_pos hx]
        rcases hx with hx | hx <;> simp [hx]
    · push_neg at hx
      constructor
      · simp [validate_arguments, hx.1, hx.2]
      · simp [validate_arguments, hx.1, hx.2]

/-- C9: `get_data` returns the single-element list holding exactly the
stored axis value, for any stored axis whatsoever; it is a pure total
function. -/
theorem get_data_spec (a : Option Int) : get_data a = [a] := rfl

/-- C10: `size_from_args` sends every axis other than `None` and `0` —
including invalid values such as 2 — to the axis=1 result (m, 1). -/
theorem size_from_args_default_axis1 (m n : Nat) (a : Int) (ha : a ≠ 0) :
    size_from_args (some a) m n = (m, 1) := by
  simp [size_from_args, ha]

/-- Witness for C10 at the concrete invalid axis 2 and shape (3, 4). -/
theorem size_from_args_default_axis1_witness :
    size_from_args (some 2) 3 4 = (3, 1) :=
  size_from_args_default_axis1 3 4 2 (by decide)

/-- C6: for axis `None`, `_axis_grad` returns exactly the primitive's
output on the transpose-then-flattened operand vector: `Except.ok none`
("no gradient") when the primitive signals non-differentiability, and
`Except.ok (some M)` with the primitive's matrix `M` verbatim otherwise. -/
theorem axis_grad_axis_none_roundtrip (cg : List ℚ → Option Mat) (A : Mat) :
    _axis_grad none cg A = Except.ok (cg (vecTF A)) := by
  cases h : cg (vecTF A) <;> simp [_axis_grad, h, csc_of]

/-- C1 (code bug evidence): with axis 0 and a primitive returning `None`
(non-differentiable) on the single column of a 1×1 operand, `_axis_grad`
evaluates `None.T` before the `if d is None` test and therefore raises
`AttributeError` instead of returning the `[None]` signal. -/
theorem axis_grad_none_slice_raises :
    _axis_grad (some 0) (fun _ => none) A11 = Except.error PyError.attributeError := rfl

/-- C2 counterexample: operand of shape (1, 2) with axis 0 and a primitive
returning a length-1 gradient for every column. The second slice targets
row `i*n = 2`, outside the declared `(m*n, n) = (2, 2)` shape, so scipy
raises `ValueError` and no placement happens at all. -/
theorem axis_grad_axis0_row_out_of_bounds :
    _axis_grad (some 0) lenGrad A12 = Except.error PyError.valueError := rfl

/-- C8 counterexample: for shape m = 3, n = 2 the axis=0 row-index sets of
slices 0 and 1 — {0, 1, 2} and {2, 3, 4} — both contain row 2, so they are
not pairwise disjoint. -/
theorem row0_sets_not_disjoint :
    (2 : Nat) ∈ ((Finset.range 3).image (row0 2 0)) ∩
      ((Finset.range 3).image (row0 2 1)) := by
  decide

/-! ## Claim theorems: gradient assembly placement and shape -/

/-- C2 (amended): for axis 0 with `n ≤ m` (so that every target row
`i*n + k` is inside the declared `(m*n, n)` shape) and a primitive
returning a gradient on every column, `_axis_grad` returns a matrix that
holds, in column `i`, slice `i`'s entries at exactly the rows
`i*n, i*n+1, …, i*n+m-1`, and zero elsewhere (the accumulation starts from
the all-zero `(m*n, n)` matrix). Without `n ≤ m` the sparse constructor
rejects the out-of-range rows (see the counterexample). -/
theorem axis_grad_axis0_placement (A : Mat) (cg : List ℚ → Option Mat)
    (G : Nat → Mat) (hmn : A.cols ≤ A.rows)
    (hg : ∀ i, i < A.cols → cg (colList A i) = some (G i)) :
    ∃ D, _axis_grad (some 0) cg A = Except.ok (some D) ∧
      D.rows = A.rows * A.cols ∧ D.cols = A.cols ∧
      (∀ i k, i < A.cols → k < A.rows →
        D.entry (i * A.cols + k) i = (G i).entry k 0) ∧
      (∀ r c, c < A.cols → (∀ k, k < A.rows → r ≠ c * A.cols + k) →
        D.entry r c = 0) := by
  have hstep : ∀ i ∈ List.range A.cols, ∀ D,
      grad0_step cg A D i = Except.ok (D.add (slice0Mat A (G i) i)) :=
    fun i hi D =>
      grad0_step_ok cg A G i hmn (List.mem_range.mp hi)
        (hg i (List.mem_range.mp hi)) D
  have hloop := gradLoop_ok (grad0_step cg A) (fun i => slice0Mat A (G i) i)
    (List.range A.cols) (zeroMat (A.rows * A.cols) A.cols) hstep
  refine ⟨List.foldl (fun D i => D.add (slice0Mat A (G i) i))
      (zeroMat (A.rows * A.cols) A.cols) (List.range A.cols), ?_, ?_, ?_, ?_, ?_⟩
  · have hax : _axis_grad (some 0) cg A
        = Except.map some (gradLoop (grad0_step cg A)
            (zeroMat (A.rows * A.cols) A.cols) (List.range A.cols)) := rfl
    rw [hax, hloop]
    rfl
  · simpa using foldl_add_rows (fun i => slice0Mat A (G i) i)
      (List.range A.cols) (zeroMat (A.rows * A.cols) A.cols)
  · simpa using foldl_add_cols (fun i => slice0Mat A (G i) i)
      (List.range A.cols) (zeroMat (A.rows * A.cols) A.cols)
  · intro i k hi hk
    rw [foldl_add_entry]
    rw [show (zeroMat (A.rows * A.cols) A.cols).entry (i * A.cols + k) i = 0
      from rfl, zero_add]
    have hzero : ∀ j, j ≠ i →
        (slice0Mat A (G j) j).entry (i * A.cols + k) i = 0 :=
      fun j hj =>
        cooMat_entry_zero A.rows (fun k2 => (G j).transpose.entry 0 k2)
          (row0 A.cols j) (fun _ => j) (A.rows * A.cols) A.cols
          (i * A.cols + k) i (fun k2 _ => Or.inr hj)
    rw [sum_map_range_eq_single
      (fun j => (slice0Mat A (G j) j).entry (i * A.cols + k) i)
      A.cols i hi hzero]
    exact cooMat_entry_eq A.rows (fun k2 => (G i).transpose.entry 0 k2)
      (row0 A.cols i) (fun _ => i) (A.rows * A.cols) A.cols k hk
      (fun k2 _ he => Nat.add_left_cancel he)
  · intro r c hc hout
    rw [foldl_add_entry]
    rw [show (zeroMat (A.rows * A.cols) A.cols).entry r c = 0 from rfl, zero_add]
    apply sum_map_range_eq_zero
    intro j _
    by_cases hjc : j = c
    · subst hjc
      exact cooMat_entry_zero A.rows (fun k2 => (G j).transpose.entry 0 k2)
        (row0 A.cols j) (fun _ => j) (A.rows * A.cols) A.cols r j
        (fun k2 hk2 => Or.inl (fun he => hout k2 hk2 he.symm))
    · exact cooMat_entry_zero A.rows (fun k2 => (G j).transpose.entry 0 k2)
        (row0 A.cols j) (fun _ => j) (A.rows * A.cols) A.cols r c
        (fun k2 _ => Or.inr hjc)

/-- Witness for the amended C2 at the 1×1 operand with the constant
primitive returning the 1×1 gradient `gOne`. -/
theorem axis_grad_axis0_placement_witness :
    ∃ D, _axis_grad (some 0) (fun _ => some gOne) A11 = Except.ok (some D) ∧
      D.rows = A11.rows * A11.cols ∧ D.cols = A11.cols ∧
      (∀ i k, i < A11.cols → k < A11.rows →
        D.entry (i * A11.cols + k) i = gOne.entry k 0) ∧
      (∀ r c, c < A11.cols → (∀ k, k < A11.rows → r ≠ c * A11.cols + k) →
        D.entry r c = 0) :=
  axis_grad_axis0_placement A11 (fun _ => some gOne) (fun _ => gOne)
    (by decide) (fun _ _ => rfl)

/-- C3: for axis 1 the operand is transposed first and the slice values are
the columns of the transpose (the original rows); when the primitive
returns a gradient on every row, `_axis_grad` returns the `(m*n, m)` matrix
holding, in column `i`, slice `i`'s `n` entries at exactly the rows
`i, i+m, i+2m, …, i+(n-1)m`, and zero elsewhere. -/
theorem axis_grad_axis1_placement (A : Mat) (cg : List ℚ → Option Mat)
    (G : Nat → Mat)
    (hg : ∀ i, i < A.rows → cg (colList A.transpose i) = some (G i)) :
    ∃ D, _axis_grad (some 1) cg A = Except.ok (some D) ∧
      D.rows = A.rows * A.cols ∧ D.cols = A.rows ∧
      (∀ i k, i < A.rows → k < A.cols →
        D.entry (i + k * A.rows) i = (G i).entry k 0) ∧
      (∀ r c, c < A.rows → (∀ k, k < A.cols → r ≠ c + k * A.rows) →
        D.entry r c = 0) := by
  have hstep : ∀ i ∈ List.range A.rows, ∀ D,
      grad1_step cg A.transpose A.rows A.cols D i
        = Except.ok (D.add (slice1Mat A.rows A.cols (G i) i)) :=
    fun i hi D =>
      grad1_step_ok cg A.transpose G A.rows A.cols i (List.mem_range.mp hi)
        (hg i (List.mem_range.mp hi)) D
  have hloop := gradLoop_ok (grad1_step cg A.transpose A.rows A.cols)
    (fun i => slice1Mat A.rows A.cols (G i) i)
    (List.range A.rows) (zeroMat (A.rows * A.cols) A.rows) hstep
  refine ⟨List.foldl (fun D i => D.add (slice1Mat A.rows A.cols (G i) i))
      (zeroMat (A.rows * A.cols) A.rows) (List.range A.rows), ?_, ?_, ?_, ?_, ?_⟩
  · have hax : _axis_grad (some 1) cg A
        = Except.map some (gradLoop (grad1_step cg A.transpose A.rows A.cols)
            (zeroMat (A.rows * A.cols) A.rows) (List.range A.rows)) := rfl
    rw [hax, hloop]
    rfl
  · simpa using foldl_add_rows (fun i => slice1Mat A.rows A.cols (G i) i)
      (List.range A.rows) (zeroMat (A.rows * A.cols) A.rows)
  · simpa using foldl_add_cols (fun i => slice1Mat A.rows A.cols (G i) i)
      (List.range A.rows) (zeroMat (A.rows * A.cols) A.rows)
  · intro i k hi hk
    rw [foldl_add_entry]
    rw [show (zeroMat (A.rows * A.cols) A.rows).entry (i + k * A.rows) i = 0
      from rfl, zero_add]
    have hzero : ∀ j, j ≠ i →
        (slice1Mat A.rows A.cols (G j) j).entry (i + k * A.rows) i = 0 :=
      fun j hj =>
        cooMat_entry_zero A.cols (fun k2 => (G j).transpose.entry 0 k2)
          (row1 A.rows j) (fun _ => j) (A.rows * A.cols) A.rows
          (i + k * A.rows) i (fun k2 _ => Or.inr hj)
    rw [sum_map_range_eq_single
      (fun j => (slice1Mat A.rows A.cols (G j) j).entry (i + k * A.rows) i)
      A.rows i hi hzero]
    have hm : 0 < A.rows := by omega
    exact cooMat_entry_eq A.cols (fun k2 => (G i).transpose.entry 0 k2)
      (row1 A.rows i) (fun _ => i) (A.rows * A.cols) A.rows k hk
      (fun k2 _ he =>
        Nat.eq_of_mul_eq_mul_right hm (Nat.add_left_cancel he))
  · intro r c hc hout
    rw [foldl_add_entry]
    rw [show (zeroMat (A.rows * A.cols) A.rows).entry r c = 0 from rfl, zero_add]
    apply sum_map_range_eq_zero
    intro j _
    by_cases hjc : j = c
    · subst hjc
      exact cooMat_entry_zero A.cols (fun k2 => (G j).transpose.entry 0 k2)
        (row1 A.rows j) (fun _ => j) (A.rows * A.cols) A.rows r j
        (fun k2 hk2 => Or.inl (fun he => hout k2 hk2 he.symm))
    · exact cooMat_entry_zero A.cols (fun k2 => (G j).transpose.entry 0 k2)
        (row1 A.rows j) (fun _ => j) (A.rows * A.cols) A.rows r c
        (fun k2 _ => Or.inr hjc)

/-- Witness for C3 at the 2×2 operand `A22` with the constant primitive
returning the 2×1 gradient `gTwo`. -/
theorem axis_grad_axis1_placement_witness :
    ∃ D, _axis_grad (some 1) (fun _ => some gTwo) A22 = Except.ok (some D) ∧
      D.rows = A22.rows * A22.cols ∧ D.cols = A22.rows ∧
      (∀ i k, i < A22.rows → k < A22.cols →
        D.entry (i + k * A22.rows) i = gTwo.entry k 0) ∧
      (∀ r c, c < A22.rows → (∀ k, k < A22.cols → r ≠ c + k * A22.rows) →
        D.entry r c = 0) :=
  axis_grad_axis1_placement A22 (fun _ => some gTwo) (fun _ => gTwo)
    (fun _ _ => rfl)

/-- C7: for any axis, any operand and any primitive satisfying the
AxisPrimitive contract (a length-k input yields a k×1 gradient), whenever
`_axis_grad` returns a matrix, that matrix has `m*n` rows and its column
count is the product of the `size_from_args` output-shape dimensions. -/
theorem axis_grad_shape_invariant (axis : Option Int) (A : Mat)
    (cg : List ℚ → Option Mat)
    (hcg : ∀ v M, cg v = some M → M.rows = v.length ∧ M.cols = 1)
    (D : Mat) (h : _axis_grad axis cg A = Except.ok (some D)) :
    D.rows = A.rows * A.cols ∧
    D.cols = (size_from_args axis A.rows A.cols).1
      * (size_from_args axis A.rows A.cols).2 := by
  cases axis with
  | none =>
    have h3 : _axis_grad none cg A
        = Except.ok ((cg (vecTF A)).map csc_of) := rfl
    rw [h3] at h
    injection h with h2
    cases hv : cg (vecTF A) with
    | none => rw [hv] at h2; cases h2
    | some M =>
      rw [hv] at h2
      simp only [Option.map_some'] at h2
      injection h2 with h2
      obtain ⟨hr, hc⟩ := hcg (vecTF A) M hv
      subst h2
      constructor
      · show M.rows = _
        rw [hr]
        simp [vecTF]
      · show M.cols = _
        rw [hc]
        rfl
  | some a =>
    by_cases ha : a = 0
    · subst ha
      have h3 : _axis_grad (some 0) cg A
          = Except.map some (gradLoop (grad0_step cg A)
              (zeroMat (A.rows * A.cols) A.cols) (List.range A.cols)) := rfl
      rw [h3] at h
      cases hL : gradLoop (grad0_step cg A)
          (zeroMat (A.rows * A.cols) A.cols) (List.range A.cols) with
      | error e => rw [hL] at h; simp [Except.map] at h
      | ok X =>
        rw [hL] at h
        simp only [Except.map] at h
        injection h with h5
        injection h5 with h5
        obtain ⟨hr, hc⟩ := gradLoop_shape (grad0_step cg A)
          (grad0_step_shape cg A) (List.range A.cols)
          (zeroMat (A.rows * A.cols) A.cols) X hL
        subst h5
        constructor
        · exact hr
        · show X.cols = 1 * A.cols
          rw [one_mul]
          exact hc
    · have h3 : _axis_grad (some a) cg A
          = Except.map some (gradLoop (grad1_step cg A.transpose A.rows A.cols)
              (zeroMat (A.rows * A.cols) A.rows) (List.range A.rows)) := by
        simp only [_axis_grad]
        rw [if_neg ha]
      rw [h3] at h
      cases hL : gradLoop (grad1_step cg A.transpose A.rows A.cols)
          (zeroMat (A.rows * A.cols) A.rows) (List.range A.rows) with
      | error e => rw [hL] at h; simp [Except.map] at h
      | ok X =>
        rw [hL] at h
        simp only [Except.map] at h
        injection h with h5
        injection h5 with h5
        obtain ⟨hr, hc⟩ := gradLoop_shape (grad1_step cg A.transpose A.rows A.cols)
          (grad1_step_shape cg A.transpose A.rows A.cols) (List.range A.rows)
          (zeroMat (A.rows * A.cols) A.rows) X hL
        subst h5
        have hs : size_from_args (some a) A.rows A.cols = (A.rows, 1) := by
          simp [size_from_args, ha]
        constructor
        · exact hr
        · rw [hs]
          show X.cols = A.rows * 1
          rw [Nat.mul_one]
          exact hc

/-- Witness for C7 at axis `None`, the 1×1 operand `A11` and the
contract-satisfying primitive `lenGrad`. -/
theorem axis_grad_shape_invariant_witness :
    (Mat.mk (vecTF A11).length 1 (fun _ _ => (1 : ℚ))).rows
        = A11.rows * A11.cols ∧
    (Mat.mk (vecTF A11).length 1 (fun _ _ => (1 : ℚ))).cols
        = (size_from_args none A11.rows A11.cols).1
          * (size_from_args none A11.rows A11.cols).2 :=
  axis_grad_shape_invariant none A11 lenGrad
    (fun v M h => by
      simp only [lenGrad] at h
      injection h with h2
      subst h2
      exact ⟨rfl, rfl⟩)
    (Mat.mk (vecTF A11).length 1 (fun _ _ => (1 : ℚ))) rfl

/-- C8 (amended): the axis=0 row-index sets of distinct slices are pairwise
disjoint when `m ≤ n` (for `m > n` they can overlap — see the
counterexample); in all cases distinct axis=0 slices write distinct
columns, so their (row, column) supports never overlap. The axis=1
row-index sets are pairwise disjoint residue classes modulo `m`. Hence the
iterated sparse additions never overlap in index space and accumulation
equals direct placement. -/
theorem index_disjointness (m n : Nat) :
    (m ≤ n → ∀ i j : Nat, i ≠ j →
      Disjoint ((Finset.range m).image (row0 n i))
        ((Finset.range m).image (row0 n j))) ∧
    (∀ i j k k2 : Nat, i ≠ j → (row0 n i k, i) ≠ (row0 n j k2, j)) ∧
    (∀ i j : Nat, i < m → j < m → i ≠ j →
      Disjoint ((Finset.range n).image (row1 m i))
        ((Finset.range n).image (row1 m j))) ∧
    (∀ i k : Nat, i < m → row1 m i k % m = i) := by
  refine ⟨?_, ?_, ?_, ?_⟩
  · intro hmn i j hij
    rw [Finset.disjoint_left]
    rintro x hx hy
    obtain ⟨k, hk, rfl⟩ := Finset.mem_image.mp hx
    obtain ⟨k2, hk2, heq⟩ := Finset.mem_image.mp hy
    have hkn : k < n := lt_of_lt_of_le (Finset.mem_range.mp hk) hmn
    have hk2n : k2 < n := lt_of_lt_of_le (Finset.mem_range.mp hk2) hmn
    rcases Nat.lt_or_ge i j with hlt | hge
    · exact Nat.ne_of_lt (row0_lt_of_lt n i j k k2 hlt hkn) heq.symm
    · have hlt2 : j < i := by omega
      exact Nat.ne_of_lt (row0_lt_of_lt n j i k2 k hlt2 hk2n) heq
  · intro i j k k2 hij hpair
    exact hij (congrArg Prod.snd hpair)
  · intro i j hi hj hij
    rw [Finset.disjoint_left]
    rintro x hx hy
    obtain ⟨k, hk, rfl⟩ := Finset.mem_image.mp hx
    obtain ⟨k2, hk2, heq⟩ := Finset.mem_image.mp hy
    have h1 : row1 m i k % m = i := by
      unfold row1
      rw [Nat.add_mul_mod_self_right]
      exact Nat.mod_eq_of_lt hi
    have h2 : row1 m j k2 % m = j := by
      unfold row1
      rw [Nat.add_mul_mod_self_right]
      exact Nat.mod_eq_of_lt hj
    rw [heq, h1] at h2
    exact hij h2
  · intro i k hi
    unfold row1
    rw [Nat.add_mul_mod_self_right]
    exact Nat.mod_eq_of_lt hi

/-- Witness for the amended C8: concrete disjointness of axis=0 row sets at
m = 2 ≤ n = 3, of axis=1 row sets at m = 3, n = 4, and the residue-class
identity at m = 3. -/
theorem index_disjointness_witness :
    Disjoint ((Finset.range 2).image (row0 3 0))
      ((Finset.range 2).image (row0 3 1)) ∧
    Disjoint ((Finset.range 4).image (row1 3 0))
      ((Finset.range 4).image (row1 3 1)) ∧
    row1 3 2 5 % 3 = 2 :=
  ⟨(index_disjointness 2 3).1 (by decide) 0 1 (by decide),
   (index_disjointness 3 4).2.2.1 0 1 (by decide) (by decide) (by decide),
   (index_disjointness 3 0).2.2.2 2 5 (by decide)⟩
